import Mathlib

/-!
Verification development for the QBX interaction operators of
`pytential/qbx/interactions.py` and the dtype helpers of `pytential/source.py`.

The loopy compute kernels are shallowly embedded as Lean functions: arrays
become functions `Nat → Int` (resp. `Nat → Nat → Int` for 2-D arrays indexed
`[row, column]` or `[idim, ipoint]`), the pluggable expansion capability
(formation rule, translation rule, evaluation rule supplied by `sumpy`)
becomes a function-valued field, and real arithmetic is modelled over `Int`
(the claims under study are structural: which slots are read and written,
assignment versus accumulation, and order-independence of sums — none
depends on properties of floating point beyond commutative-ring laws).
Sequential loop nests become folds; loop nests whose writes are
per-iteration independent become pointwise definitions.
-/

namespace Pytential

/-- Coordinate / displacement vectors, indexed by `idim`. -/
abbrev Vec := Nat → Int

/-- 2-D numeric arrays, e.g. `qbx_expansions[row, icoeff]` or
`sources[idim, ipoint]`. -/
abbrev Ary2 := Nat → Nat → Int

/-- The CSR adjacency slice of box `b`: entries
`lists[starts[b]], …, lists[starts[b+1] - 1]` (empty when
`starts[b+1] ≤ starts[b]`). -/
def csrSlice (starts : Nat → Nat) (lists : Nat → Nat) (b : Nat) : List Nat :=
  (List.range (starts (b + 1) - starts b)).map (fun k => lists (starts b + k))

/-- The contiguous index range `start, …, start + cnt - 1` (a box's owned
points, from `box_*_starts` / `box_*_counts_nonchild`). -/
def rangeList (start cnt : Nat) : List Nat :=
  (List.range cnt).map (fun k => start + k)

/-! ## P2QBXLFromCSR (`interactions.py`, lines 37–120)

For each `itgt_center`, the kernel takes `tgt_icenter =
global_qbx_centers[itgt_center]`, the owning box `itgt_box =
qbx_center_to_target_box[tgt_icenter]`, iterates the CSR slice
`source_box_starts[itgt_box] … source_box_starts[itgt_box+1]` of
`source_box_lists`, and for each listed box all its owned sources, and
writes `qbx_expansions[tgt_icenter, i] =
simul_reduce(sum, (isrc_box, isrc), strength * coeff_i)` where the
formation rule computes `coeff_i` from the displacement
`a = center - source`. -/

structure P2QBXLFromCSR where
  sources : Ary2
  strengths : Nat → Int
  global_qbx_centers : List Nat
  qbx_center_to_target_box : Nat → Nat
  source_box_starts : Nat → Nat
  source_box_lists : Nat → Nat
  box_source_starts : Nat → Nat
  box_source_counts_nonchild : Nat → Nat
  qbx_centers : Ary2
  /-- formation rule of the expansion capability: displacement `a` ↦ `coeff i` -/
  coeff : Vec → Nat → Int

/-- Source-box slice of the box owning center `tgt_icenter`. -/
def P2QBXLFromCSR.partnerBoxes (A : P2QBXLFromCSR) (tgt_icenter : Nat) : List Nat :=
  csrSlice A.source_box_starts A.source_box_lists (A.qbx_center_to_target_box tgt_icenter)

/-- Sources owned (non-child) by box `src_ibox`. -/
def P2QBXLFromCSR.srcRange (A : P2QBXLFromCSR) (src_ibox : Nat) : List Nat :=
  rangeList (A.box_source_starts src_ibox) (A.box_source_counts_nonchild src_ibox)

/-- One source's contribution to coefficient `i` of center `tgt_icenter`:
`strength * coeff_i(center - source)`. -/
def P2QBXLFromCSR.term (A : P2QBXLFromCSR) (tgt_icenter isrc i : Nat) : Int :=
  A.strengths isrc *
    A.coeff (fun idim => A.qbx_centers idim tgt_icenter - A.sources idim isrc) i

/-- All contributions to coefficient `i` of center `c`, in kernel iteration
order (outer loop over the CSR partner boxes, inner loop over each box's
owned sources). -/
def P2QBXLFromCSR.contribList (A : P2QBXLFromCSR) (c i : Nat) : List Int :=
  ((A.partnerBoxes c).map (fun b => (A.srcRange b).map (fun s => A.term c s i))).flatten

/-- Effect of the kernel on `qbx_expansions`: every row named in
`global_qbx_centers` is assigned the reduction
`simul_reduce(sum, (isrc_box, isrc), strength*coeff_i)`; other rows are not
written. -/
def P2QBXLFromCSR.run (A : P2QBXLFromCSR) (qbx_expansions : Ary2) : Ary2 :=
  fun c i =>
    if c ∈ A.global_qbx_centers then (A.contribList c i).sum else qbx_expansions c i

/-! ## M2QBXL (`interactions.py`, lines 268–354)

For each `icenter < ncenters`: slice `src_box_starts[icontaining_tgt_box] …
src_box_starts[icontaining_tgt_box+1]` of `src_box_lists` with
`icontaining_tgt_box = qbx_center_to_target_box[icenter]`; for each listed
box, translate its multipole stored at row `src_ibox - src_base_ibox` of
`src_expansions` across `d = tgt_center - src_center`, and accumulate:
`qbx_expansions[icenter, i] = qbx_expansions[icenter, i] +
simul_reduce(sum, isrc_box, coeff_i)`. -/

structure M2QBXL where
  centers : Ary2
  src_box_starts : Nat → Nat
  src_box_lists : Nat → Nat
  qbx_centers : Ary2
  qbx_center_to_target_box : Nat → Nat
  src_base_ibox : Nat
  src_expansions : Ary2
  ncenters : Nat
  /-- translation rule: displacement `d`, source coefficients ↦ `coeff i` -/
  translate : Vec → (Nat → Int) → Nat → Int

/-- Source-box slice ("list 3"-style) of the box owning center `icenter`. -/
def M2QBXL.partnerBoxes (A : M2QBXL) (icenter : Nat) : List Nat :=
  csrSlice A.src_box_starts A.src_box_lists (A.qbx_center_to_target_box icenter)

/-- Contribution of box `src_ibox` to coefficient `i` of center `icenter`:
the translation rule applied to `d = tgt_center - src_center` and the
multipole row `src_ibox - src_base_ibox` of the per-level storage. -/
def M2QBXL.boxTerm (A : M2QBXL) (icenter src_ibox i : Nat) : Int :=
  A.translate (fun idim => A.qbx_centers idim icenter - A.centers idim src_ibox)
    (fun j => A.src_expansions (src_ibox - A.src_base_ibox) j) i

/-- `simul_reduce(sum, isrc_box, coeff_i)` for center `icenter`. -/
def M2QBXL.contrib (A : M2QBXL) (icenter i : Nat) : Int :=
  ((A.partnerBoxes icenter).map (fun b => A.boxTerm icenter b i)).sum

/-- Effect of the kernel on `qbx_expansions`: each row `icenter < ncenters`
is incremented by its summed contribution; rows are written independently. -/
def M2QBXL.run (A : M2QBXL) (qbx_expansions : Ary2) : Ary2 :=
  fun c i =>
    if c < A.ncenters then qbx_expansions c i + A.contrib c i else qbx_expansions c i

/-! ## QBXM2M (`interactions.py`, lines 186–261)

For each position `isrc_box` in `source_boxes` (sequentially):
`src_ibox = source_boxes[isrc_box]`; for each source owned by that box,
translate the per-source multipole `qbx_expansions[isrc, ·]` across
`d = center - source` (the box's center minus the source position) and
write — plain assignment, not accumulation —
`src_expansions[src_ibox - src_base_ibox, i] =
simul_reduce(sum, isrc, coeff_i)`. -/

structure QBXM2M where
  source_boxes : List Nat
  sources : Ary2
  centers : Ary2
  src_base_ibox : Nat
  qbx_expansions : Ary2
  box_source_starts : Nat → Nat
  box_source_counts_nonchild : Nat → Nat
  /-- translation rule: displacement `d`, source coefficients ↦ `coeff i` -/
  translate : Vec → (Nat → Int) → Nat → Int

/-- Sources owned (non-child) by box `src_ibox`. -/
def QBXM2M.srcRange (A : QBXM2M) (src_ibox : Nat) : List Nat :=
  rangeList (A.box_source_starts src_ibox) (A.box_source_counts_nonchild src_ibox)

/-- Contribution of source `isrc` to coefficient `i` of box `src_ibox`. -/
def QBXM2M.srcTerm (A : QBXM2M) (src_ibox isrc i : Nat) : Int :=
  A.translate (fun idim => A.centers idim src_ibox - A.sources idim isrc)
    (fun j => A.qbx_expansions isrc j) i

/-- `simul_reduce(sum, isrc, coeff_i)` for box `src_ibox`. -/
def QBXM2M.boxContrib (A : QBXM2M) (src_ibox i : Nat) : Int :=
  ((A.srcRange src_ibox).map (fun s => A.srcTerm src_ibox s i)).sum

/-- One iteration of the `isrc_box` loop: row `src_ibox - src_base_ibox` of
`src_expansions` is overwritten with the reduction. -/
def QBXM2M.step (A : QBXM2M) (E : Ary2) (src_ibox : Nat) : Ary2 :=
  fun r i => if r = src_ibox - A.src_base_ibox then A.boxContrib src_ibox i else E r i

/-- The `isrc_box` loop run over an explicit list of boxes. -/
def QBXM2M.runList (A : QBXM2M) (l : List Nat) (E : Ary2) : Ary2 :=
  l.foldl A.step E

/-- Effect of the kernel on `src_expansions`. -/
def QBXM2M.run (A : QBXM2M) (E : Ary2) : Ary2 :=
  A.runList A.source_boxes E

/-! ## L2QBXL (`interactions.py`, lines 361–439)

For each `icenter < ncenters`: `src_ibox =
target_boxes[qbx_center_to_target_box[icenter]]`; if
`target_base_ibox ≤ src_ibox < target_base_ibox + nboxes`, translate the
local expansion `expansions[src_ibox - target_base_ibox, ·]` across
`d = tgt_center - src_center` and accumulate
`qbx_expansions[icenter, i] = qbx_expansions[icenter, i] + coeff_i`;
otherwise the body (reads of `expansions` included) is skipped. -/

structure L2QBXL where
  target_boxes : Nat → Nat
  centers : Ary2
  qbx_centers : Ary2
  qbx_center_to_target_box : Nat → Nat
  target_base_ibox : Nat
  nboxes : Nat
  ncenters : Nat
  /-- translation rule: displacement `d`, source coefficients ↦ `coeff i` -/
  translate : Vec → (Nat → Int) → Nat → Int

/-- The (global) index of the box owning center `icenter`. -/
def L2QBXL.src_ibox (A : L2QBXL) (icenter : Nat) : Nat :=
  A.target_boxes (A.qbx_center_to_target_box icenter)

/-- The guard `target_base_ibox <= src_ibox and src_ibox < target_base_ibox
+ nboxes`. -/
def L2QBXL.in_range (A : L2QBXL) (icenter : Nat) : Bool :=
  decide (A.target_base_ibox ≤ A.src_ibox icenter) &&
    decide (A.src_ibox icenter < A.target_base_ibox + A.nboxes)

/-- The translated coefficient `coeff_i` for center `icenter`, reading the
owning box's local expansion at row `src_ibox - target_base_ibox` of
`expansions`. -/
def L2QBXL.contrib (A : L2QBXL) (expansions : Ary2) (icenter i : Nat) : Int :=
  A.translate
    (fun idim => A.qbx_centers idim icenter - A.centers idim (A.src_ibox icenter))
    (fun j => expansions (A.src_ibox icenter - A.target_base_ibox) j) i

/-- Effect of the kernel on `qbx_expansions`: in-range centers accumulate
the translated coefficients; out-of-range centers are untouched. -/
def L2QBXL.run (A : L2QBXL) (expansions qbx_expansions : Ary2) : Ary2 :=
  fun c i =>
    if c < A.ncenters ∧ A.in_range c = true then
      qbx_expansions c i + A.contrib expansions c i
    else qbx_expansions c i

/-! ## QBXL2P (`interactions.py`, lines 446–523)

For each position in `global_qbx_centers` (sequentially): `src_icenter =
global_qbx_centers[iglobal_center]`; for each `icenter_tgt` in the CSR
slice `center_to_targets_starts[src_icenter] …
center_to_targets_starts[src_icenter+1]` of `center_to_targets_lists`:
`center_itgt = center_to_targets_lists[icenter_tgt]`, and plain-assign
`result[i, center_itgt] = kernel_scaling * result_i_p` where the evaluation
rule computes `result_i_p` from `b = target - center` and the center's
expansion row. -/

structure QBXL2P where
  global_qbx_centers : List Nat
  center_to_targets_starts : Nat → Nat
  center_to_targets_lists : Nat → Nat
  qbx_centers : Ary2
  qbx_expansions : Ary2
  targets : Ary2
  kernel_scaling : Int
  /-- evaluation rule: displacement `b`, coefficients ↦ `result_i_p` -/
  evalRule : Vec → (Nat → Int) → Nat → Int

/-- Target slice of center `src_icenter` (from the center-to-targets CSR
adjacency). -/
def QBXL2P.tgtSlice (A : QBXL2P) (src_icenter : Nat) : List Nat :=
  csrSlice A.center_to_targets_starts A.center_to_targets_lists src_icenter

/-- The value written for result channel `i` at target `center_itgt` served
by center `src_icenter`: `kernel_scaling * result_i_p`. -/
def QBXL2P.value (A : QBXL2P) (src_icenter center_itgt i : Nat) : Int :=
  A.kernel_scaling *
    A.evalRule (fun idim => A.targets idim center_itgt - A.qbx_centers idim src_icenter)
      (fun j => A.qbx_expansions src_icenter j) i

/-- One write of the inner `icenter_tgt` loop (plain assignment into
`result[·, t]`). -/
def QBXL2P.writeTgt (A : QBXL2P) (c : Nat) (R : Ary2) (t : Nat) : Ary2 :=
  fun i t2 => if t2 = t then A.value c t i else R i t2

/-- All writes performed for one active center. -/
def QBXL2P.centerStep (A : QBXL2P) (R : Ary2) (c : Nat) : Ary2 :=
  (A.tgtSlice c).foldl (A.writeTgt c) R

/-- The `iglobal_center` loop run over an explicit list of centers. -/
def QBXL2P.runList (A : QBXL2P) (l : List Nat) (R : Ary2) : Ary2 :=
  l.foldl A.centerStep R

/-- Effect of the kernel on `result`. -/
def QBXL2P.run (A : QBXL2P) (R : Ary2) : Ary2 :=
  A.runList A.global_qbx_centers R

/-! ## QBXM2PFromCSR (`interactions.py`, lines 526–634)

For each `itgt_box < ntgt_boxes` (sequentially): `tgt_ibox =
target_boxes[itgt_box]` with its owned target range; for each `src_ibox` in
the CSR slice `source_box_starts[itgt_box] … source_box_starts[itgt_box+1]`
of `source_box_lists`, for each owned target `itgt`, accumulate
`result[r, itgt] = result[r, itgt] + kernel_scaling *
simul_reduce(sum, isrc, result_r_p)` where `result_r_p` is the pairwise
rule applied to `b = tgt - src` and the per-source raw data row
`src_expansions[isrc, ·]`. -/

structure QBXM2PFromCSR where
  ntgt_boxes : Nat
  target_boxes : Nat → Nat
  box_target_starts : Nat → Nat
  box_target_counts_nonchild : Nat → Nat
  box_source_starts : Nat → Nat
  box_source_counts_nonchild : Nat → Nat
  source_box_starts : Nat → Nat
  source_box_lists : Nat → Nat
  targets : Ary2
  sources : Ary2
  src_expansions : Ary2
  kernel_scaling : Int
  /-- pairwise rule: displacement `b`, per-source data ↦ `result_r_p` -/
  pairRule : Vec → (Nat → Int) → Nat → Int

/-- Near source-box slice of the target box at position `itgt_box`. -/
def QBXM2PFromCSR.srcBoxes (A : QBXM2PFromCSR) (itgt_box : Nat) : List Nat :=
  csrSlice A.source_box_starts A.source_box_lists itgt_box

/-- Targets owned (non-child) by box `tgt_ibox`. -/
def QBXM2PFromCSR.tgtRange (A : QBXM2PFromCSR) (tgt_ibox : Nat) : List Nat :=
  rangeList (A.box_target_starts tgt_ibox) (A.box_target_counts_nonchild tgt_ibox)

/-- Sources owned (non-child) by box `src_ibox`. -/
def QBXM2PFromCSR.srcRange (A : QBXM2PFromCSR) (src_ibox : Nat) : List Nat :=
  rangeList (A.box_source_starts src_ibox) (A.box_source_counts_nonchild src_ibox)

/-- The pairwise contribution `result_r_p` of source `isrc` at target
`itgt` (computed from the per-source raw data row, not a formed
expansion). -/
def QBXM2PFromCSR.pairContrib (A : QBXM2PFromCSR) (itgt isrc r : Nat) : Int :=
  A.pairRule (fun idim => A.targets idim itgt - A.sources idim isrc)
    (fun j => A.src_expansions isrc j) r

/-- One iteration of the `isrc_box` loop: every target owned by the current
target box accumulates `kernel_scaling * simul_reduce(sum, isrc,
result_r_p)`. -/
def QBXM2PFromCSR.srcBoxStep (A : QBXM2PFromCSR) (itgt_box : Nat) (R : Ary2)
    (src_ibox : Nat) : Ary2 :=
  fun r t =>
    if t ∈ A.tgtRange (A.target_boxes itgt_box) then
      R r t +
        A.kernel_scaling * ((A.srcRange src_ibox).map (fun isrc => A.pairContrib t isrc r)).sum
    else R r t

/-- One iteration of the `itgt_box` loop. -/
def QBXM2PFromCSR.step (A : QBXM2PFromCSR) (R : Ary2) (itgt_box : Nat) : Ary2 :=
  (A.srcBoxes itgt_box).foldl (A.srcBoxStep itgt_box) R

/-- Total contribution of target-box position `itgt_box` to result channel
`r` of a target `itgt` it owns: the sum over its near source boxes of the
scaled per-box source sums. -/
def QBXM2PFromCSR.boxContrib (A : QBXM2PFromCSR) (itgt_box itgt r : Nat) : Int :=
  ((A.srcBoxes itgt_box).map (fun src_ibox =>
    A.kernel_scaling * ((A.srcRange src_ibox).map (fun isrc => A.pairContrib itgt isrc r)).sum)).sum

/-- The `itgt_box` loop run over an explicit list of target-box positions. -/
def QBXM2PFromCSR.runList (A : QBXM2PFromCSR) (l : List Nat) (R : Ary2) : Ary2 :=
  l.foldl A.step R

/-- Effect of the kernel on `result`. -/
def QBXM2PFromCSR.run (A : QBXM2PFromCSR) (R : Ary2) : Ary2 :=
  A.runList (List.range A.ntgt_boxes) R

/-! ## P2QBXM (`interactions.py`, lines 123–179)

For each `isrc < nsources`: `center = qbx_centers[:, isrc]`,
`a = center - sources[:, isrc]`, `strength = strengths[isrc]`, and
`qbx_expansions[isrc, i] = strength * coeff_i` — one output row per source,
indexed by the source index. -/

structure P2QBXM where
  nsources : Nat
  sources : Ary2
  qbx_centers : Ary2
  strengths : Nat → Int
  /-- formation rule of the expansion capability: displacement `a` ↦ `coeff i` -/
  coeff : Vec → Nat → Int

/-- The displacement `a = qbx_centers[:, isrc] - sources[:, isrc]` passed to
the formation rule for source `isrc`. -/
def P2QBXM.disp (A : P2QBXM) (isrc : Nat) : Vec :=
  fun idim => A.qbx_centers idim isrc - A.sources idim isrc

/-- Effect of the kernel on `qbx_expansions`: row `isrc < nsources` is
assigned `strength * coeff_i(a)`; other rows are not written. -/
def P2QBXM.run (A : P2QBXM) (qbx_expansions : Ary2) : Ary2 :=
  fun s i =>
    if s < A.nsources then A.strengths s * A.coeff (A.disp s) i
    else qbx_expansions s i

/-! ## `pytential/source.py`: dtype helpers

`numpy` dtypes are modelled by an inductive covering the dtypes the code
distinguishes; a dtype's `kind` character (`'f'`, `'c'`, `'i'`, `'O'`)
becomes `DtypeKind`.  Python exceptions become an error inductive carried
in `Except`. -/

inductive DtypeKind where
  | f
  | c
  | i
  | O
deriving DecidableEq

inductive Dtype where
  | float32
  | float64
  | complex64
  | complex128
  | int32
  | objectDtype
deriving DecidableEq

/-- The numpy `dtype.kind` character. -/
def Dtype.kind : Dtype → DtypeKind
  | .float32 => .f
  | .float64 => .f
  | .complex64 => .c
  | .complex128 => .c
  | .int32 => .i
  | .objectDtype => .O

inductive PyErr where
  | typeError
  | valueError
  | keyError
deriving DecidableEq

/-- The shapes of strengths arrays `_entry_dtype` distinguishes: a
`DOFArray` (with its `entry_dtype`), a numpy `ndarray` (an object-dtype one
recurses into its flat entries), a `pyopencl` array, or anything else
(which raises `TypeError`). -/
inductive StrengthsAry where
  | dofArray (entry_dtype : Dtype)
  | ndarray (dtype : Dtype) (flat : List StrengthsAry)
  | clArray (dtype : Dtype)
  | otherObj

/-- Helper for `single_valued`: all remaining entries must equal `d`. -/
def checkSameDtype (d : Dtype) : List (Except PyErr Dtype) → Except PyErr Dtype
  | [] => .ok d
  | .error e :: _ => .error e
  | .ok d2 :: rest => if d2 = d then checkSameDtype d rest else .error .valueError

/-- `pytools.single_valued` over an iterator of already-computed
`_entry_dtype` results: raises `ValueError` on an empty iterable, takes the
first value, and checks the rest equal to it (the first entry error, met in
order, propagates). -/
def single_valued : List (Except PyErr Dtype) → Except PyErr Dtype
  | [] => .error .valueError
  | .error e :: _ => .error e
  | .ok d :: rest => checkSameDtype d rest

/-- `_entry_dtype` (`source.py`, lines 191–206): `DOFArray` → its
`entry_dtype`; `ndarray` of object dtype → `single_valued` over the entries'
`_entry_dtype`s, other `ndarray` → its dtype; `pyopencl` array → its dtype;
anything else → `TypeError`. -/
def entryDtype : StrengthsAry → Except PyErr Dtype
  | .dofArray d => .ok d
  | .ndarray d flat =>
      if d.kind = .O then
        single_valued (flat.attach.map (fun e => entryDtype e.1))
      else .ok d
  | .clArray d => .ok d
  | .otherObj => .error .typeError
decreasing_by
  have := List.sizeOf_lt_of_mem e.2
  simp only [StrengthsAry.ndarray.sizeOf_spec] at *
  omega

/-- The dtype properties of a `LayerPotentialSourceBase` (delegated to its
`density_discr`): `real_dtype` and `complex_dtype`. -/
structure LayerPotentialSourceBase where
  real_dtype : Dtype
  complex_dtype : Dtype

/-- Second operand of the short-circuit `or` in
`get_fmm_output_and_expansion_dtype`, applied to the `_entry_dtype`
result: kind `'c'` selects `complex_dtype`, any other kind `real_dtype`,
and an `_entry_dtype` exception propagates. -/
def LayerPotentialSourceBase.fmmDtypeFromEntry
    (self : LayerPotentialSourceBase) : Except PyErr Dtype → Except PyErr Dtype
  | .ok d => if d.kind = .c then .ok self.complex_dtype else .ok self.real_dtype
  | .error e => .error e

/-- `LayerPotentialSourceBase.get_fmm_output_and_expansion_dtype`
(`source.py`, lines 267–271): `complex_dtype` when the base kernel is
complex-valued or (short-circuit `or`) the strengths' entry dtype has kind
`'c'`; `real_dtype` otherwise. -/
def LayerPotentialSourceBase.get_fmm_output_and_expansion_dtype
    (self : LayerPotentialSourceBase) (base_kernel_is_complex_valued : Bool)
    (strengths : StrengthsAry) : Except PyErr Dtype :=
  if base_kernel_is_complex_valued then .ok self.complex_dtype
  else self.fmmDtypeFromEntry (entryDtype strengths)

/-- A `PointPotentialSource`, reduced to the data its dtype properties
read: the dtype of its `nodes` array. -/
structure PointPotentialSource where
  nodes_dtype : Dtype

/-- `PointPotentialSource.real_dtype` (`source.py`, lines 110–112): the
nodes' dtype. -/
def PointPotentialSource.real_dtype (self : PointPotentialSource) : Dtype :=
  self.nodes_dtype

/-- `PointPotentialSource.complex_dtype` (`source.py`, lines 119–124): the
dict `{float32: complex64, float64: complex128}` looked up at
`real_dtype.type` — any other key raises `KeyError`. -/
def PointPotentialSource.complex_dtype (self : PointPotentialSource) : Except PyErr Dtype :=
  match self.real_dtype with
  | .float32 => .ok .complex64
  | .float64 => .ok .complex128
  | _ => .error .keyError

/-! ## Concrete example instances

Small executable instances of each operator, used to evaluate the theorems
below on concrete data. -/

/-- An all-ones 2-D array, used as a nonzero prior output state. -/
def oneAry : Ary2 := fun _ _ => 1

/-- A small `P2QBXLFromCSR` instance: one active center (index 0) whose
owning box 0 has the one-box slice `[0]`, and box 0 owns sources 0 and 1. -/
def exP2QBXL : P2QBXLFromCSR where
  sources := fun _ isrc => (isrc : Int)
  strengths := fun isrc => (isrc : Int) + 1
  global_qbx_centers := [0]
  qbx_center_to_target_box := fun _ => 0
  source_box_starts := fun b => b
  source_box_lists := fun k => k
  box_source_starts := fun _ => 0
  box_source_counts_nonchild := fun _ => 2
  qbx_centers := fun _ _ => 10
  coeff := fun a i => a 0 + (i : Int)

/-- A `P2QBXLFromCSR` instance whose only active center has an empty
source-box slice. -/
def exP2QBXLempty : P2QBXLFromCSR where
  sources := fun _ isrc => (isrc : Int)
  strengths := fun _ => 1
  global_qbx_centers := [0]
  qbx_center_to_target_box := fun _ => 0
  source_box_starts := fun _ => 0
  source_box_lists := fun k => k
  box_source_starts := fun _ => 0
  box_source_counts_nonchild := fun _ => 1
  qbx_centers := fun _ _ => 10
  coeff := fun a i => a 0 + (i : Int)

/-- A small `M2QBXL` instance: one center whose owning box has the one-box
slice `[0]`. -/
def exM2QBXL : M2QBXL where
  centers := fun _ b => (b : Int)
  src_box_starts := fun b => b
  src_box_lists := fun k => k
  qbx_centers := fun _ c => (c : Int) + 5
  qbx_center_to_target_box := fun c => c
  src_base_ibox := 0
  src_expansions := fun r j => (r : Int) + (j : Int)
  ncenters := 1
  translate := fun d coeffs i => d 0 * coeffs i

/-- An `M2QBXL` instance whose only center has an empty source-box slice. -/
def exM2QBXLempty : M2QBXL where
  centers := fun _ b => (b : Int)
  src_box_starts := fun _ => 0
  src_box_lists := fun k => k
  qbx_centers := fun _ c => (c : Int) + 5
  qbx_center_to_target_box := fun c => c
  src_base_ibox := 0
  src_expansions := fun r j => (r : Int) + (j : Int)
  ncenters := 1
  translate := fun d coeffs i => d 0 * coeffs i

/-- A `QBXM2M` instance whose single listed box owns no sources, so its
output row receives the empty reduction. -/
def exQBXM2M : QBXM2M where
  source_boxes := [0]
  sources := fun _ _ => 0
  centers := fun _ _ => 0
  src_base_ibox := 0
  qbx_expansions := fun _ _ => 0
  box_source_starts := fun _ => 0
  box_source_counts_nonchild := fun _ => 0
  translate := fun _ coeffs i => coeffs i

/-- An `L2QBXL` instance with two centers: center 0's owning box 0 is
inside the valid window `[0, 1)`, center 1's owning box 1 is outside it. -/
def exL2QBXL : L2QBXL where
  target_boxes := fun b => b
  centers := fun _ b => (b : Int)
  qbx_centers := fun _ c => (c : Int) + 3
  qbx_center_to_target_box := fun c => c
  target_base_ibox := 0
  nboxes := 1
  ncenters := 2
  translate := fun d coeffs i => d 0 + coeffs i

/-- A local-expansion array agreeing with `oneAry` on row 0 (the only row
inside `exL2QBXL`'s valid window) and differing elsewhere. -/
def exExpOut : Ary2 := fun r _ => if r = 0 then 1 else 5

/-- A `QBXL2P` instance with two active centers, center `c` serving exactly
target `c`. -/
def exQBXL2P : QBXL2P where
  global_qbx_centers := [0, 1]
  center_to_targets_starts := fun c => c
  center_to_targets_lists := fun k => k
  qbx_centers := fun _ c => (c : Int)
  qbx_expansions := fun c j => (c : Int) + (j : Int)
  targets := fun _ t => (t : Int) + 7
  kernel_scaling := 2
  evalRule := fun b coeffs i => b 0 * coeffs i

/-- A `P2QBXM` instance whose per-source center does not coincide with the
source, giving a nonzero displacement. -/
def exP2QBXM : P2QBXM where
  nsources := 1
  sources := fun _ _ => 0
  qbx_centers := fun _ _ => 1
  strengths := fun _ => 1
  coeff := fun a _ => a 0

/-- A layer-potential source with `float64` real and `complex128` complex
dtypes. -/
def exLPSource : LayerPotentialSourceBase := ⟨.float64, .complex128⟩

/-- A real-valued strengths array (a `DOFArray` of `float64` entries). -/
def exStrengths : StrengthsAry := .dofArray .float64

/-! ## Helper lemmas -/

/-- A `QBXM2M` run over boxes none of which maps to row `r` leaves row `r`
unchanged. -/
theorem QBXM2M.runList_untouched (A : QBXM2M) (l : List Nat) (E : Ary2) (r i : Nat)
    (h : ∀ b ∈ l, b - A.src_base_ibox ≠ r) : A.runList l E r i = E r i := by
  induction l generalizing E with
  | nil => rfl
  | cons x xs ih =>
      rw [QBXM2M.runList, List.foldl_cons, ← QBXM2M.runList, ih _ (fun b hb => h b (List.mem_cons_of_mem _ hb))]
      simp only [QBXM2M.step]
      rw [if_neg]
      intro hr
      exact h x (List.mem_cons_self x xs) hr.symm

/-- A `QBXM2M` run writes the reduction of box `b` into row
`b - src_base_ibox` when no other listed box aliases that row. -/
theorem QBXM2M.runList_write (A : QBXM2M) (l : List Nat) (E : Ary2) (b : Nat)
    (hb : b ∈ l)
    (huniq : ∀ b2 ∈ l, b2 - A.src_base_ibox = b - A.src_base_ibox → b2 = b) (i : Nat) :
    A.runList l E (b - A.src_base_ibox) i = A.boxContrib b i := by
  induction l generalizing E with
  | nil => cases hb
  | cons x xs ih =>
      rw [QBXM2M.runList, List.foldl_cons, ← QBXM2M.runList]
      by_cases hbx : b ∈ xs
      · exact ih _ hbx (fun b2 h2 => huniq b2 (List.mem_cons_of_mem _ h2))
      · have hxb : x = b := ((List.mem_cons.mp hb).resolve_right hbx).symm
        subst hxb
        rw [QBXM2M.runList_untouched]
        · simp [QBXM2M.step]
        · intro b2 h2 hr
          exact hbx (huniq b2 (List.mem_cons_of_mem _ h2) hr ▸ h2)

/-- The inner target loop of `QBXL2P` leaves slots for targets outside the
iterated list unchanged. -/
theorem QBXL2P.writeFold_not_mem (A : QBXL2P) (c : Nat) (l : List Nat) (R : Ary2)
    (i t : Nat) (h : t ∉ l) : (l.foldl (A.writeTgt c) R) i t = R i t := by
  induction l generalizing R with
  | nil => rfl
  | cons x xs ih =>
      rw [List.foldl_cons, ih _ (fun hx => h (List.mem_cons_of_mem _ hx))]
      simp only [QBXL2P.writeTgt]
      rw [if_neg (fun ht : t = x => h (ht ▸ List.mem_cons_self x xs))]

/-- The inner target loop of `QBXL2P` assigns `value c t` to every target
`t` in the iterated list. -/
theorem QBXL2P.writeFold_mem (A : QBXL2P) (c : Nat) (l : List Nat) (R : Ary2)
    (i t : Nat) (h : t ∈ l) : (l.foldl (A.writeTgt c) R) i t = A.value c t i := by
  induction l generalizing R with
  | nil => cases h
  | cons x xs ih =>
      rw [List.foldl_cons]
      by_cases hx : t ∈ xs
      · exact ih _ hx
      · have htx : t = x := (List.mem_cons.mp h).resolve_right hx
        rw [QBXL2P.writeFold_not_mem A c xs _ i t hx]
        simp [QBXL2P.writeTgt, htx]

/-- If every center in `l` either is `c` or does not serve target `t`, a
slot already holding `value c t` keeps it. -/
theorem QBXL2P.runList_keeps (A : QBXL2P) (c t : Nat) (l : List Nat) (R : Ary2)
    (i : Nat) (h : ∀ c2 ∈ l, c2 ≠ c → t ∉ A.tgtSlice c2)
    (hR : R i t = A.value c t i) : A.runList l R i t = A.value c t i := by
  induction l generalizing R with
  | nil => exact hR
  | cons x xs ih =>
      rw [QBXL2P.runList, List.foldl_cons, ← QBXL2P.runList]
      refine ih _ (fun c2 h2 => h c2 (List.mem_cons_of_mem _ h2)) ?_
      by_cases hx : t ∈ A.tgtSlice x
      · have hxc : x = c := by
          by_contra hne
          exact h x (List.mem_cons_self x xs) hne hx
        rw [QBXL2P.centerStep, QBXL2P.writeFold_mem A x _ R i t hx, hxc]
      · rw [QBXL2P.centerStep, QBXL2P.writeFold_not_mem A x _ R i t hx]
        exact hR

/-- A `QBXL2P` run over a center list containing `c`, where no other listed
center serves target `t ∈ tgtSlice c`, leaves `value c t` in the slot. -/
theorem QBXL2P.runList_assign_last (A : QBXL2P) (c t : Nat) (l : List Nat) (R : Ary2)
    (i : Nat) (hc : c ∈ l) (ht : t ∈ A.tgtSlice c)
    (h : ∀ c2 ∈ l, c2 ≠ c → t ∉ A.tgtSlice c2) :
    A.runList l R i t = A.value c t i := by
  induction l generalizing R with
  | nil => cases hc
  | cons x xs ih =>
      rw [QBXL2P.runList, List.foldl_cons, ← QBXL2P.runList]
      by_cases hcx : c ∈ xs
      · exact ih _ hcx (fun c2 h2 => h c2 (List.mem_cons_of_mem _ h2))
      · have hxc : x = c := ((List.mem_cons.mp hc).resolve_right hcx).symm
        refine QBXL2P.runList_keeps A c t xs _ i
          (fun c2 h2 => h c2 (List.mem_cons_of_mem _ h2)) ?_
        rw [QBXL2P.centerStep, hxc, QBXL2P.writeFold_mem A c _ R i t ht]

/-- One `isrc_box` iteration batch of `QBXM2PFromCSR` leaves result slots
of targets not owned by the current target box unchanged. -/
theorem QBXM2PFromCSR.srcBoxFold_not_mem (A : QBXM2PFromCSR) (j : Nat)
    (l : List Nat) (R : Ary2) (r t : Nat)
    (h : t ∉ A.tgtRange (A.target_boxes j)) :
    (l.foldl (A.srcBoxStep j) R) r t = R r t := by
  induction l generalizing R with
  | nil => rfl
  | cons x xs ih =>
      rw [List.foldl_cons, ih]
      simp only [QBXM2PFromCSR.srcBoxStep]
      rw [if_neg h]

/-- One `isrc_box` iteration batch of `QBXM2PFromCSR` adds, to each owned
target, the scaled per-source-box sums of the iterated boxes. -/
theorem QBXM2PFromCSR.srcBoxFold_mem (A : QBXM2PFromCSR) (j : Nat)
    (l : List Nat) (R : Ary2) (r t : Nat)
    (h : t ∈ A.tgtRange (A.target_boxes j)) :
    (l.foldl (A.srcBoxStep j) R) r t =
      R r t + (l.map (fun src_ibox =>
        A.kernel_scaling *
          ((A.srcRange src_ibox).map (fun isrc => A.pairContrib t isrc r)).sum)).sum := by
  induction l generalizing R with
  | nil => simp
  | cons x xs ih =>
      rw [List.foldl_cons, ih]
      simp only [QBXM2PFromCSR.srcBoxStep, if_pos h, List.map_cons, List.sum_cons]
      ring

/-- The effect of one `itgt_box` iteration of `QBXM2PFromCSR` on a result
slot. -/
theorem QBXM2PFromCSR.step_spec (A : QBXM2PFromCSR) (R : Ary2) (j r t : Nat) :
    A.step R j r t =
      if t ∈ A.tgtRange (A.target_boxes j) then R r t + A.boxContrib j t r
      else R r t := by
  by_cases h : t ∈ A.tgtRange (A.target_boxes j)
  · rw [if_pos h, QBXM2PFromCSR.step, QBXM2PFromCSR.srcBoxFold_mem A j _ R r t h,
      QBXM2PFromCSR.boxContrib]
  · rw [if_neg h, QBXM2PFromCSR.step, QBXM2PFromCSR.srcBoxFold_not_mem A j _ R r t h]

/-- A `QBXM2PFromCSR` run over a list of target-box positions adds to each
result slot the contributions of exactly those positions whose target box
owns the slot's target. -/
theorem QBXM2PFromCSR.runList_spec (A : QBXM2PFromCSR) (l : List Nat) (R : Ary2)
    (r t : Nat) :
    A.runList l R r t =
      R r t + ((l.filter (fun j => decide (t ∈ A.tgtRange (A.target_boxes j)))).map
        (fun j => A.boxContrib j t r)).sum := by
  induction l generalizing R with
  | nil => simp [QBXM2PFromCSR.runList]
  | cons x xs ih =>
      rw [QBXM2PFromCSR.runList, List.foldl_cons, ← QBXM2PFromCSR.runList, ih,
        QBXM2PFromCSR.step_spec]
      by_cases hx : t ∈ A.tgtRange (A.target_boxes x)
      · rw [if_pos hx, List.filter_cons_of_pos (by simpa using hx), List.map_cons,
          List.sum_cons]
        ring
      · rw [if_neg hx, List.filter_cons_of_neg (by simpa using hx)]

/-! ## Claim theorems -/

/-- C1: for every active center (every entry of `global_qbx_centers`), the
`P2QBXLFromCSR` output coefficient row equals the sum, over all sources
owned by all source boxes listed in the adjacency slice of the center's
owning box, of the formation rule applied to the displacement
(center − source) scaled by the source's strength; and this sum is
independent of the iteration order over partners and sources (any
permutation of the contribution list has the same sum). -/
theorem P2QBXLFromCSR.run_eq_sum (A : P2QBXLFromCSR) (E : Ary2) (c : Nat)
    (hc : c ∈ A.global_qbx_centers) (i : Nat) :
    A.run E c i =
      ((A.partnerBoxes c).map (fun src_ibox =>
        ((A.srcRange src_ibox).map (fun isrc =>
          A.strengths isrc *
            A.coeff (fun idim => A.qbx_centers idim c - A.sources idim isrc) i)).sum)).sum
    ∧ ∀ l : List Int, l.Perm (A.contribList c i) → l.sum = A.run E c i := by
  have hrun : A.run E c i = (A.contribList c i).sum := by
    rw [P2QBXLFromCSR.run, if_pos hc]
  refine ⟨?_, fun l hl => by rw [hrun, hl.sum_eq]⟩
  rw [hrun, P2QBXLFromCSR.contribList, List.sum_flatten, List.map_map]
  rfl

/-- C1 witness: the theorem evaluated on `exP2QBXL` at its active center. -/
theorem P2QBXLFromCSR.run_eq_sum_witness :
    0 ∈ exP2QBXL.global_qbx_centers ∧
    (exP2QBXL.run oneAry 0 0 =
      ((exP2QBXL.partnerBoxes 0).map (fun src_ibox =>
        ((exP2QBXL.srcRange src_ibox).map (fun isrc =>
          exP2QBXL.strengths isrc *
            exP2QBXL.coeff
              (fun idim => exP2QBXL.qbx_centers idim 0 - exP2QBXL.sources idim isrc) 0)).sum)).sum
    ∧ ∀ l : List Int, l.Perm (exP2QBXL.contribList 0 0) →
        l.sum = exP2QBXL.run oneAry 0 0) :=
  ⟨by decide, P2QBXLFromCSR.run_eq_sum exP2QBXL oneAry 0 (by decide) 0⟩

/-- C2 counterexample: `QBXM2M` does not accumulate.  On `exQBXM2M` (prior
row value 1, one listed box owning no sources) the final row value is the
empty reduction 0, not prior + contributions = 1. -/
theorem QBXM2M.overwrite_counterexample :
    ¬ (exQBXM2M.run oneAry 0 0 = oneAry 0 0 + exQBXM2M.boxContrib 0 0) := by
  decide

/-- C2 amended: `M2QBXL` and `L2QBXL` accumulate — the final row value
equals the prior value plus the new contributions — but `QBXM2M` assigns:
the written row holds exactly the new reduction, discarding the prior
value (stated for rows not aliased by another listed box). -/
theorem translation_operator_row_update :
    (∀ (A : M2QBXL) (E : Ary2) (c i : Nat), c < A.ncenters →
        A.run E c i = E c i + A.contrib c i)
    ∧ (∀ (A : L2QBXL) (exp E : Ary2) (c i : Nat), c < A.ncenters →
        A.in_range c = true → A.run exp E c i = E c i + A.contrib exp c i)
    ∧ (∀ (A : QBXM2M) (E : Ary2) (b : Nat), b ∈ A.source_boxes →
        (∀ b2 ∈ A.source_boxes, b2 - A.src_base_ibox = b - A.src_base_ibox → b2 = b) →
        ∀ i, A.run E (b - A.src_base_ibox) i = A.boxContrib b i) := by
  refine ⟨fun A E c i hc => ?_, fun A exp E c i hc hr => ?_, fun A E b hb huniq i => ?_⟩
  · rw [M2QBXL.run, if_pos hc]
  · rw [L2QBXL.run, if_pos ⟨hc, hr⟩]
  · exact QBXM2M.runList_write A A.source_boxes E b hb huniq i

/-- C2 amended witness: the three parts evaluated on `exM2QBXL`,
`exL2QBXL` and `exQBXM2M`. -/
theorem translation_operator_row_update_witness :
    (0 < exM2QBXL.ncenters ∧
      exM2QBXL.run oneAry 0 0 = oneAry 0 0 + exM2QBXL.contrib 0 0)
    ∧ (0 < exL2QBXL.ncenters ∧ exL2QBXL.in_range 0 = true ∧
      exL2QBXL.run oneAry oneAry 0 0 = oneAry 0 0 + exL2QBXL.contrib oneAry 0 0)
    ∧ (0 ∈ exQBXM2M.source_boxes ∧
      exQBXM2M.run oneAry (0 - exQBXM2M.src_base_ibox) 0 = exQBXM2M.boxContrib 0 0) :=
  ⟨⟨by decide, translation_operator_row_update.1 exM2QBXL oneAry 0 0 (by decide)⟩,
   ⟨by decide, by decide,
    translation_operator_row_update.2.1 exL2QBXL oneAry oneAry 0 0 (by decide) (by decide)⟩,
   ⟨by decide,
    translation_operator_row_update.2.2 exQBXM2M oneAry 0 (by decide) (by decide) 0⟩⟩

/-- C3: `L2QBXL` leaves out-of-window centers' rows unchanged, its output
does not depend on `expansions` rows outside `[0, nboxes)` (no
out-of-range read), and in-window centers accumulate the owning box's
translated local expansion read at row `src_ibox - target_base_ibox`. -/
theorem L2QBXL.range_guard :
    (∀ (A : L2QBXL) (exp E : Ary2) (c i : Nat), c < A.ncenters →
        A.in_range c = false → A.run exp E c i = E c i)
    ∧ (∀ (A : L2QBXL) (exp exp2 E : Ary2),
        (∀ r, r < A.nboxes → ∀ j, exp r j = exp2 r j) →
        ∀ c i, A.run exp E c i = A.run exp2 E c i)
    ∧ (∀ (A : L2QBXL) (exp E : Ary2) (c i : Nat), c < A.ncenters →
        A.in_range c = true →
        A.run exp E c i = E c i +
          A.translate
            (fun idim => A.qbx_centers idim c - A.centers idim (A.src_ibox c))
            (fun j => exp (A.src_ibox c - A.target_base_ibox) j) i) := by
  refine ⟨fun A exp E c i hc hr => ?_, fun A exp exp2 E hagree c i => ?_,
    fun A exp E c i hc hr => ?_⟩
  · rw [L2QBXL.run, if_neg (fun hpos => by rw [hpos.2] at hr; cases hr)]
  · by_cases hc : c < A.ncenters ∧ A.in_range c = true
    · rw [L2QBXL.run, if_pos hc, L2QBXL.run, if_pos hc]
      have hrange : A.src_ibox c - A.target_base_ibox < A.nboxes := by
        have h2 := hc.2
        rw [L2QBXL.in_range, Bool.and_eq_true, decide_eq_true_eq, decide_eq_true_eq] at h2
        omega
      rw [L2QBXL.contrib, L2QBXL.contrib]
      have : (fun j => exp (A.src_ibox c - A.target_base_ibox) j) =
          (fun j => exp2 (A.src_ibox c - A.target_base_ibox) j) :=
        funext (fun j => hagree _ hrange j)
      rw [this]
    · rw [L2QBXL.run, if_neg hc, L2QBXL.run, if_neg hc]
  · rw [L2QBXL.run, if_pos ⟨hc, hr⟩, L2QBXL.contrib]

/-- C3 witness: the three parts evaluated on `exL2QBXL` (center 1 is out of
the window, center 0 inside; changing `expansions` off the valid window
does not change the output). -/
theorem L2QBXL.range_guard_witness :
    (1 < exL2QBXL.ncenters ∧ exL2QBXL.in_range 1 = false ∧
      exL2QBXL.run oneAry oneAry 1 0 = oneAry 1 0)
    ∧ ((∀ r, r < exL2QBXL.nboxes → ∀ j, oneAry r j = exExpOut r j) ∧
      exL2QBXL.run oneAry oneAry 0 0 = exL2QBXL.run exExpOut oneAry 0 0)
    ∧ (0 < exL2QBXL.ncenters ∧ exL2QBXL.in_range 0 = true ∧
      exL2QBXL.run oneAry oneAry 0 0 = oneAry 0 0 +
        exL2QBXL.translate
          (fun idim => exL2QBXL.qbx_centers idim 0 - exL2QBXL.centers idim (exL2QBXL.src_ibox 0))
          (fun j => oneAry (exL2QBXL.src_ibox 0 - exL2QBXL.target_base_ibox) j) 0) :=
  ⟨⟨by decide, by decide,
    L2QBXL.range_guard.1 exL2QBXL oneAry oneAry 1 0 (by decide) (by decide)⟩,
   ⟨fun r hr j => by simp [oneAry, exExpOut, Nat.lt_one_iff.mp hr],
    L2QBXL.range_guard.2.1 exL2QBXL oneAry exExpOut oneAry
      (fun r hr j => by simp [oneAry, exExpOut, Nat.lt_one_iff.mp hr]) 0 0⟩,
   ⟨by decide, by decide,
    L2QBXL.range_guard.2.2 exL2QBXL oneAry oneAry 0 0 (by decide) (by decide)⟩⟩

/-- C4: `M2QBXL` processes each center `icenter < ncenters`: its row is
incremented by the sum, over the boxes of its far adjacency slice, of the
translation rule applied to the displacement and the box's multipole read
at row `src_ibox - src_base_ibox` of the per-level storage. -/
theorem M2QBXL.run_translates (A : M2QBXL) (E : Ary2) (c i : Nat)
    (hc : c < A.ncenters) :
    A.run E c i = E c i +
      ((A.partnerBoxes c).map (fun src_ibox =>
        A.translate (fun idim => A.qbx_centers idim c - A.centers idim src_ibox)
          (fun j => A.src_expansions (src_ibox - A.src_base_ibox) j) i)).sum := by
  rw [M2QBXL.run, if_pos hc, M2QBXL.contrib]
  rfl

/-- C4 witness: the theorem evaluated on `exM2QBXL`. -/
theorem M2QBXL.run_translates_witness :
    0 < exM2QBXL.ncenters ∧
    exM2QBXL.run oneAry 0 0 = oneAry 0 0 +
      ((exM2QBXL.partnerBoxes 0).map (fun src_ibox =>
        exM2QBXL.translate
          (fun idim => exM2QBXL.qbx_centers idim 0 - exM2QBXL.centers idim src_ibox)
          (fun j => exM2QBXL.src_expansions (src_ibox - exM2QBXL.src_base_ibox) j) 0)).sum :=
  ⟨by decide, M2QBXL.run_translates exM2QBXL oneAry 0 0 (by decide)⟩

/-- C5: for an active center `c` and a target `t` of its center-to-targets
slice, served by no other active center, the `QBXL2P` result slot for each
channel is set by plain assignment to `kernel_scaling` times the
evaluation rule applied to the center's expansion at displacement
(target − center). -/
theorem QBXL2P.run_assigns (A : QBXL2P) (R : Ary2) (c t : Nat)
    (hc : c ∈ A.global_qbx_centers) (ht : t ∈ A.tgtSlice c)
    (huniq : ∀ c2 ∈ A.global_qbx_centers, c2 ≠ c → t ∉ A.tgtSlice c2) (i : Nat) :
    A.run R i t = A.kernel_scaling *
      A.evalRule (fun idim => A.targets idim t - A.qbx_centers idim c)
        (fun j => A.qbx_expansions c j) i := by
  rw [QBXL2P.run, QBXL2P.runList_assign_last A c t A.global_qbx_centers R i hc ht huniq,
    QBXL2P.value]

/-- C5 witness: the theorem evaluated on `exQBXL2P` at center 0 and its
target 0. -/
theorem QBXL2P.run_assigns_witness :
    0 ∈ exQBXL2P.global_qbx_centers ∧ 0 ∈ exQBXL2P.tgtSlice 0 ∧
    (∀ c2 ∈ exQBXL2P.global_qbx_centers, c2 ≠ 0 → 0 ∉ exQBXL2P.tgtSlice c2) ∧
    exQBXL2P.run oneAry 0 0 = exQBXL2P.kernel_scaling *
      exQBXL2P.evalRule
        (fun idim => exQBXL2P.targets idim 0 - exQBXL2P.qbx_centers idim 0)
        (fun j => exQBXL2P.qbx_expansions 0 j) 0 :=
  ⟨by decide, by decide, by decide,
   QBXL2P.run_assigns exQBXL2P oneAry 0 0 (by decide) (by decide) (by decide) 0⟩

/-- C6: `QBXM2PFromCSR` accumulates: every result slot ends at its prior
value plus the contributions of exactly those target-box positions whose
box owns the target — each contribution being the sum over the near source
boxes of the scaled per-source pairwise kernel sums. -/
theorem QBXM2PFromCSR.run_accumulates (A : QBXM2PFromCSR) (R : Ary2) (r t : Nat) :
    A.run R r t =
      R r t + (((List.range A.ntgt_boxes).filter
        (fun j => decide (t ∈ A.tgtRange (A.target_boxes j)))).map
        (fun j => A.boxContrib j t r)).sum :=
  QBXM2PFromCSR.runList_spec A (List.range A.ntgt_boxes) R r t

/-- C7 counterexample: the claim fails for `P2QBXLFromCSR` — on
`exP2QBXLempty` the active center 0 has an empty adjacency slice and still
its (prior nonzero) coefficient row is changed: it is overwritten with the
empty reduction 0. -/
theorem P2QBXLFromCSR.empty_slice_counterexample :
    exP2QBXLempty.partnerBoxes 0 = [] ∧
    ¬ (exP2QBXLempty.run oneAry 0 0 = oneAry 0 0) := by
  decide

/-- C7 amended: a center with an empty adjacency slice keeps its row
unchanged under `M2QBXL` (identity accumulation), while under
`P2QBXLFromCSR` its row is overwritten with 0 (the empty sum) — unchanged
only if it was already 0. -/
theorem empty_slice_effect :
    (∀ (A : M2QBXL) (E : Ary2) (c i : Nat), c < A.ncenters →
        A.partnerBoxes c = [] → A.run E c i = E c i)
    ∧ (∀ (A : P2QBXLFromCSR) (E : Ary2) (c i : Nat), c ∈ A.global_qbx_centers →
        A.partnerBoxes c = [] → A.run E c i = 0) := by
  constructor
  · intro A E c i hc hempty
    rw [M2QBXL.run, if_pos hc, M2QBXL.contrib, hempty]
    simp
  · intro A E c i hc hempty
    rw [P2QBXLFromCSR.run, if_pos hc, P2QBXLFromCSR.contribList, hempty]
    rfl

/-- C7 amended witness: the two parts evaluated on `exM2QBXLempty` and
`exP2QBXLempty`. -/
theorem empty_slice_effect_witness :
    (0 < exM2QBXLempty.ncenters ∧ exM2QBXLempty.partnerBoxes 0 = [] ∧
      exM2QBXLempty.run oneAry 0 0 = oneAry 0 0)
    ∧ (0 ∈ exP2QBXLempty.global_qbx_centers ∧ exP2QBXLempty.partnerBoxes 0 = [] ∧
      exP2QBXLempty.run oneAry 0 0 = 0) :=
  ⟨⟨by decide, by decide,
    empty_slice_effect.1 exM2QBXLempty oneAry 0 0 (by decide) (by decide)⟩,
   ⟨by decide, by decide,
    empty_slice_effect.2 exP2QBXLempty oneAry 0 0 (by decide) (by decide)⟩⟩

/-- C8 counterexample: the displacement `P2QBXM` passes to the formation
rule is `qbx_centers[:, isrc] - sources[:, isrc]`, not always the zero
vector: on `exP2QBXM` it is 1 in component 0, and the output row differs
from what a zero displacement would produce. -/
theorem P2QBXM.nonzero_disp_counterexample :
    exP2QBXM.disp 0 0 = 1 ∧
    ¬ (exP2QBXM.run oneAry 0 0 =
        exP2QBXM.strengths 0 * exP2QBXM.coeff (fun _ => 0) 0) := by
  decide

/-- C8 amended: `P2QBXM` stores, for each source `isrc < nsources`, exactly
one output row at row index `isrc`, holding the strength-scaled formation
rule applied to the displacement `qbx_centers[:, isrc] - sources[:, isrc]`
(the zero vector exactly when the per-source center coincides with the
source); rows beyond `nsources` are not written. -/
theorem P2QBXM.run_rows (A : P2QBXM) (E : Ary2) (s : Nat) (hs : s < A.nsources) :
    (∀ i, A.run E s i = A.strengths s * A.coeff (A.disp s) i)
    ∧ ((∀ idim, A.qbx_centers idim s = A.sources idim s) →
        A.disp s = fun _ => 0)
    ∧ (∀ s2 i, A.nsources ≤ s2 → A.run E s2 i = E s2 i) := by
  refine ⟨fun i => ?_, fun hco => ?_, fun s2 i h2 => ?_⟩
  · rw [P2QBXM.run, if_pos hs]
  · funext idim
    rw [P2QBXM.disp]
    simp [hco idim]
  · rw [P2QBXM.run, if_neg (by omega)]

/-- C8 amended witness: the theorem evaluated on `exP2QBXM`. -/
theorem P2QBXM.run_rows_witness :
    0 < exP2QBXM.nsources ∧
    ((∀ i, exP2QBXM.run oneAry 0 i =
        exP2QBXM.strengths 0 * exP2QBXM.coeff (exP2QBXM.disp 0) i)
     ∧ ((∀ idim, exP2QBXM.qbx_centers idim 0 = exP2QBXM.sources idim 0) →
        exP2QBXM.disp 0 = fun _ => 0)
     ∧ (∀ s2 i, exP2QBXM.nsources ≤ s2 → exP2QBXM.run oneAry s2 i = oneAry s2 i)) :=
  ⟨by decide, P2QBXM.run_rows exP2QBXM oneAry 0 (by decide)⟩

/-- C9: when the strengths' entry dtype is defined,
`get_fmm_output_and_expansion_dtype` returns the complex dtype exactly
when the base kernel is complex-valued or that entry dtype has kind
`'c'`; in every other case it returns the real dtype (stated for sources
whose real and complex dtypes differ, as in numpy). -/
theorem LayerPotentialSourceBase.fmm_dtype_complex_iff
    (self : LayerPotentialSourceBase) (kc : Bool) (s : StrengthsAry) (d : Dtype)
    (hd : entryDtype s = .ok d)
    (hne : self.real_dtype ≠ self.complex_dtype) :
    (self.get_fmm_output_and_expansion_dtype kc s = .ok self.complex_dtype ↔
      (kc = true ∨ d.kind = .c))
    ∧ ((kc = false ∧ d.kind ≠ .c) →
      self.get_fmm_output_and_expansion_dtype kc s = .ok self.real_dtype) := by
  rw [LayerPotentialSourceBase.get_fmm_output_and_expansion_dtype]
  cases kc with
  | true => simp
  | false =>
      rw [if_neg (by simp), hd]
      simp only [LayerPotentialSourceBase.fmmDtypeFromEntry, Bool.false_eq_true, false_or]
      by_cases hk : d.kind = .c
      · rw [if_pos hk]
        simp [hk]
      · rw [if_neg hk]
        simp only [Except.ok.injEq]
        exact ⟨⟨fun h => absurd h hne, fun h => absurd h hk⟩, fun _ => trivial⟩

/-- C9 witness: the theorem evaluated on `exLPSource` with a real-valued
kernel and `exStrengths` (entry dtype `float64`). -/
theorem LayerPotentialSourceBase.fmm_dtype_complex_iff_witness :
    entryDtype exStrengths = .ok .float64 ∧
    exLPSource.real_dtype ≠ exLPSource.complex_dtype ∧
    ((exLPSource.get_fmm_output_and_expansion_dtype false exStrengths =
        .ok exLPSource.complex_dtype ↔
      (false = true ∨ Dtype.kind .float64 = .c))
     ∧ ((false = false ∧ Dtype.kind .float64 ≠ .c) →
      exLPSource.get_fmm_output_and_expansion_dtype false exStrengths =
        .ok exLPSource.real_dtype)) :=
  ⟨by simp [entryDtype, exStrengths], by decide,
   LayerPotentialSourceBase.fmm_dtype_complex_iff exLPSource false exStrengths .float64
     (by simp [entryDtype, exStrengths]) (by decide)⟩

/-- C10: `PointPotentialSource.complex_dtype` is `complex64` for `float32`
nodes, `complex128` for `float64` nodes, and raises `KeyError` for every
other node dtype. -/
theorem PointPotentialSource.complex_dtype_spec :
    (∀ self : PointPotentialSource, self.nodes_dtype = .float32 →
        self.complex_dtype = .ok .complex64)
    ∧ (∀ self : PointPotentialSource, self.nodes_dtype = .float64 →
        self.complex_dtype = .ok .complex128)
    ∧ (∀ self : PointPotentialSource, self.nodes_dtype ≠ .float32 →
        self.nodes_dtype ≠ .float64 →
        self.complex_dtype = .error .keyError) := by
  refine ⟨fun self h => ?_, fun self h => ?_, fun self h1 h2 => ?_⟩
  · rw [PointPotentialSource.complex_dtype, PointPotentialSource.real_dtype, h]
  · rw [PointPotentialSource.complex_dtype, PointPotentialSource.real_dtype, h]
  · rw [PointPotentialSource.complex_dtype, PointPotentialSource.real_dtype]
    cases hd : self.nodes_dtype <;> simp_all

/-- C10 witness: the theorem evaluated at `float32`, `float64`, and `int32`
node dtypes. -/
theorem PointPotentialSource.complex_dtype_spec_witness :
    (PointPotentialSource.mk .float32).complex_dtype = .ok .complex64
    ∧ (PointPotentialSource.mk .float64).complex_dtype = .ok .complex128
    ∧ ((PointPotentialSource.mk .int32).nodes_dtype ≠ .float32 ∧
       (PointPotentialSource.mk .int32).nodes_dtype ≠ .float64 ∧
       (PointPotentialSource.mk .int32).complex_dtype = .error .keyError) :=
  ⟨PointPotentialSource.complex_dtype_spec.1 ⟨.float32⟩ rfl,
   PointPotentialSource.complex_dtype_spec.2.1 ⟨.float64⟩ rfl,
   by decide, by decide,
   PointPotentialSource.complex_dtype_spec.2.2 ⟨.int32⟩ (by decide) (by decide)⟩

end Pytential
